import Mathlib

/-!
Verification of the creators search-index processor
(`creators.search-index.ts`, embedded below as `CreatorsSearchIndex`).

The embedding models:
  * the Prisma-selected `User` rows (with their `rank` and timeframe-keyed
    `metrics` relations) and the `searchIndexUpdateQueue` table;
  * the Meilisearch client as a trace of engine operations together with a
    task-uid counter (Meilisearch assigns increasing `taskUid`s to enqueued
    tasks);
  * `onIndexSetup` and `onIndexUpdate` as pure state-transformers over that
    trace. The `while (true)` read loop is embedded with explicit fuel
    (`updateLoopFuel`); termination is then a theorem, not an assumption.

Timestamps are modelled as naturals. The source store (`db`) is a fixed value
during a run, matching a store that does not change mid-run.
-/

namespace CreatorsSearchIndex

/-- `MetricTimeframe` enum from `@prisma/client`. -/
inductive MetricTimeframe
  | Day
  | Week
  | Month
  | Year
  | AllTime
deriving DecidableEq

/-- One row of the per-timeframe `UserMetric` relation, restricted to the
fields selected by `onIndexUpdate`. -/
structure UserMetric where
  timeframe : MetricTimeframe
  followerCount : Nat
  uploadCount : Nat
  followingCount : Nat
  reviewCount : Nat
  answerAcceptCount : Nat
  hiddenCount : Nat
deriving DecidableEq

/-- The `rank` relation fields selected by `onIndexUpdate`. -/
structure RankRecord where
  ratingAllTimeRank : Nat
  ratingCountAllTimeRank : Nat
  followerCountAllTimeRank : Nat
  favoriteCountAllTimeRank : Nat
  answerAcceptCountAllTimeRank : Nat
  answerCountAllTimeRank : Nat
  downloadCountAllTimeRank : Nat
deriving DecidableEq

/-- A source `User` row with the columns the processor touches
(`userWithCosmeticsSelect` is kept abstract as `id`/`username`/`createdAt`;
`updatedAt` is carried so that spec-level statements about last-modified
times can be expressed). `metrics` holds every timeframe's record; the
query's nested `where` filters it. -/
structure UserRow where
  id : Nat
  username : String
  createdAt : Nat
  updatedAt : Nat
  deletedAt : Option Nat
  rank : Option RankRecord
  metrics : List UserMetric
deriving DecidableEq

/-- The flattened `metrics` object of an index document. A field holding
`none` models a field that is absent from the JS object (the spread of `{}`),
as opposed to a field explicitly set to null. -/
structure MetricsObj where
  followerCount : Option Nat
  uploadCount : Option Nat
  followingCount : Option Nat
  reviewCount : Option Nat
  answerAcceptCount : Option Nat
  hiddenCount : Option Nat
deriving DecidableEq

/-- The spread of `{}`: every metrics field absent. -/
def emptyMetricsObj : MetricsObj :=
  ⟨none, none, none, none, none, none⟩

/-- The spread of one selected `UserMetric` record: every field present. -/
def spreadMetric (m : UserMetric) : MetricsObj :=
  ⟨some m.followerCount, some m.uploadCount, some m.followingCount,
   some m.reviewCount, some m.answerAcceptCount, some m.hiddenCount⟩

/-- An index-ready document: the selected user row with the metrics array
flattened to a single object. -/
structure IndexReadyRecord where
  id : Nat
  username : String
  createdAt : Nat
  updatedAt : Nat
  deletedAt : Option Nat
  rank : Option RankRecord
  metrics : MetricsObj
deriving DecidableEq

/-- One row of the `searchIndexUpdateQueue` table. -/
structure QueueEntry where
  id : Nat
  type : String
deriving DecidableEq

/-- The slice of the relational store the processor reads. -/
structure Db where
  users : List UserRow
  searchIndexUpdateQueue : List QueueEntry
deriving DecidableEq

def READ_BATCH_SIZE : Nat := 1000

def INDEX_ID : String := "creators"

def SWAP_INDEX_ID : String := INDEX_ID ++ "_NEW"

/-- `db.searchIndexUpdateQueue.findMany({ select: { id }, where: { type: INDEX_ID } })`
followed by `.map(({ id }) => id)`. -/
def queuedIds (db : Db) : List Nat :=
  (db.searchIndexUpdateQueue.filter (fun e => e.type == INDEX_ID)).map (fun e => e.id)

/-- The `where` clause of the user `findMany`:
`deletedAt: null` and, when `lastUpdatedAt` is provided,
`OR: [{ createdAt: { gt: lastUpdatedAt } }, { id: { in: queuedItems } }]`. -/
def userWhere (lastUpdatedAt : Option Nat) (queued : List Nat) (u : UserRow) : Bool :=
  (u.deletedAt == none) &&
    (match lastUpdatedAt with
     | none => true
     | some w => decide (w < u.createdAt) || queued.contains u.id)

/-- The nested metrics `select`'s `where: { timeframe: MetricTimeframe.AllTime }`. -/
def selectMetrics (u : UserRow) : UserRow :=
  { u with metrics := u.metrics.filter (fun m => m.timeframe == MetricTimeframe.AllTime) }

/-- `db.user.findMany({ skip, take, select: ..., where: ... })`: filter by the
`where` clause, apply offset pagination, and apply the nested metrics filter. -/
def findManyUsers (db : Db) (lastUpdatedAt : Option Nat) (queued : List Nat)
    (skip take : Nat) : List UserRow :=
  ((((db.users.filter (userWhere lastUpdatedAt queued))).drop skip).take take).map selectMetrics

/-- The per-row mapping inside `users.map((userRecord) => ...)`:
spread the record and flatten the metrics array via `metrics[0] || {}`. -/
def flattenRecord (u : UserRow) : IndexReadyRecord :=
  { id := u.id
    username := u.username
    createdAt := u.createdAt
    updatedAt := u.updatedAt
    deletedAt := u.deletedAt
    rank := u.rank
    metrics :=
      match u.metrics.head? with
      | some m => spreadMetric m
      | none => emptyMetricsObj }

/-- One operation issued to the Meilisearch client. Task-creating calls carry
the `taskUid` Meilisearch answered with. -/
inductive EngineOp
  | getOrCreateIndex (indexName : String)
  | updateSearchableAttributes (indexName : String) (attrs : List String) (taskUid : Nat)
  | updateSortableAttributes (indexName : String) (attrs : List String) (taskUid : Nat)
  | updateDocuments (indexName : String) (docs : List IndexReadyRecord) (taskUid : Nat)
  | waitForTasks (taskUids : List Nat)
deriving DecidableEq

/-- The engine-facing state of a run: the ordered trace of operations issued
so far, and the next `taskUid` Meilisearch will assign. -/
structure EngineState where
  trace : List EngineOp
  nextTaskUid : Nat
deriving DecidableEq

def EngineState.push (s : EngineState) (op : EngineOp) : EngineState :=
  { s with trace := s.trace ++ [op] }

def EngineState.newTask (s : EngineState) : Nat × EngineState :=
  (s.nextTaskUid, { s with nextTaskUid := s.nextTaskUid + 1 })

def initialEngineState : EngineState := ⟨[], 0⟩

def searchableAttrs : List String := ["username"]

def sortableAttrs : List String :=
  ["creation_date", "rank.ratingAllTimeRank", "rank.ratingCountAllTimeRank",
   "rank.followerCountAllTimeRank", "rank.favoriteCountAllTimeRank",
   "rank.answerAcceptCountAllTimeRank", "rank.answerCountAllTimeRank",
   "rank.downloadCountAllTimeRank", "metrics.followerCount", "metrics.uploadCount",
   "metrics.followingCount", "metrics.reviewCount", "metrics.answerAcceptCount",
   "metrics.hiddenCount"]

/-- `onIndexSetup`. `client` models whether a Meilisearch client is
configured (`client` import being non-null); `indexAvailable` models
`getOrCreateIndex` returning a non-null index handle. -/
def onIndexSetup (client : Bool) (indexAvailable : Bool) (indexName : String)
    (s : EngineState) : EngineState :=
  if !client then s
  else
    let s := s.push (EngineOp.getOrCreateIndex indexName)
    if !indexAvailable then s
    else
      let (uid1, s) := s.newTask
      let s := s.push (EngineOp.updateSearchableAttributes indexName searchableAttrs uid1)
      let (uid2, s) := s.newTask
      let s := s.push (EngineOp.updateSortableAttributes indexName sortableAttrs uid2)
      s.push (EngineOp.waitForTasks [uid1, uid2])

/-- Result of the `while (true)` read loop: every page fetched from the store
(including the final empty fetch that breaks the loop), the accumulated
`tagTasks` uids, and the engine state. -/
structure LoopResult where
  pages : List (List UserRow)
  tagTasks : List Nat
  state : EngineState
deriving DecidableEq

/-- The `while (true)` loop of `onIndexUpdate`, embedded with explicit fuel:
fetch a page at `offset`; break when it is empty; otherwise flatten the rows,
submit `updateDocuments` against `${INDEX_ID}`, push the task and advance
`offset` by the page length. `none` means the fuel ran out before the loop
broke. -/
def updateLoopFuel (db : Db) (lastUpdatedAt : Option Nat) (queued : List Nat) :
    Nat → Nat → EngineState → Option LoopResult
  | 0, _, _ => none
  | fuel + 1, offset, s =>
    let users := findManyUsers db lastUpdatedAt queued offset READ_BATCH_SIZE
    if users.isEmpty then
      some ⟨[users], [], s⟩
    else
      let indexReadyRecords := users.map flattenRecord
      let (uid, s1) := s.newTask
      let s2 := s1.push (EngineOp.updateDocuments INDEX_ID indexReadyRecords uid)
      match updateLoopFuel db lastUpdatedAt queued fuel (offset + users.length) s2 with
      | none => none
      | some rest => some ⟨users :: rest.pages, uid :: rest.tagTasks, rest.state⟩

/-- Number of rows matching the `where` clause. -/
def matchingCount (db : Db) (lastUpdatedAt : Option Nat) (queued : List Nat) : Nat :=
  (db.users.filter (userWhere lastUpdatedAt queued)).length

/-- The read loop run with provably sufficient fuel (see
`updateLoopFuel_enough`). -/
def updateLoop (db : Db) (lastUpdatedAt : Option Nat) (queued : List Nat)
    (offset : Nat) (s : EngineState) : LoopResult :=
  (updateLoopFuel db lastUpdatedAt queued (matchingCount db lastUpdatedAt queued + 1)
      offset s).getD ⟨[], [], s⟩

/-- `onIndexUpdate` over the engine state. -/
def onIndexUpdate (client : Bool) (indexAvailable : Bool) (db : Db)
    (lastUpdatedAt : Option Nat) (indexName : String) (s : EngineState) : EngineState :=
  if !client then s
  else
    let s := onIndexSetup client indexAvailable indexName s
    let queued := queuedIds db
    let r := updateLoop db lastUpdatedAt queued 0 s
    r.state.push (EngineOp.waitForTasks r.tagTasks)

/-- The pages fetched by the read loop of a run that starts from a fresh
engine state (the pages do not depend on the engine state). -/
def runPages (db : Db) (lastUpdatedAt : Option Nat) : List (List UserRow) :=
  (updateLoop db lastUpdatedAt (queuedIds db) 0 initialEngineState).pages

/-- The rows read by a run: the concatenation of all fetched pages. -/
def runReadRows (db : Db) (lastUpdatedAt : Option Nat) : List UserRow :=
  (runPages db lastUpdatedAt).flatten

/-- The task uids of the upsert (`updateDocuments`) operations of a trace,
in submission order. -/
def upsertUids (t : List EngineOp) : List Nat :=
  t.filterMap (fun op =>
    match op with
    | EngineOp.updateDocuments _ _ uid => some uid
    | _ => none)

/-- The document batches of the upsert operations of a trace, in submission
order. -/
def upsertBatches (t : List EngineOp) : List (List IndexReadyRecord) :=
  t.filterMap (fun op =>
    match op with
    | EngineOp.updateDocuments _ docs _ => some docs
    | _ => none)

/-- `true` when every upsert operation of the trace targets `name`. -/
def upsertsTargetOnly (name : String) (t : List EngineOp) : Bool :=
  t.all (fun op =>
    match op with
    | EngineOp.updateDocuments n _ _ => n == name
    | _ => true)

/-! ### Basic lemmas about the read loop -/

/-- The engine state after one loop iteration submits its batch. -/
def stepState (db : Db) (w : Option Nat) (q : List Nat) (offset : Nat)
    (s : EngineState) : EngineState :=
  { trace := s.trace ++
      [EngineOp.updateDocuments INDEX_ID
        ((findManyUsers db w q offset READ_BATCH_SIZE).map flattenRecord) s.nextTaskUid],
    nextTaskUid := s.nextTaskUid + 1 }

/-- One-step unfolding of the loop, with the `let`-bindings resolved. -/
theorem updateLoopFuel_succ (db : Db) (w : Option Nat) (q : List Nat)
    (fuel offset : Nat) (s : EngineState) :
    updateLoopFuel db w q (fuel + 1) offset s =
      (if (findManyUsers db w q offset READ_BATCH_SIZE).isEmpty then
        some ⟨[findManyUsers db w q offset READ_BATCH_SIZE], [], s⟩
      else
        match updateLoopFuel db w q fuel
            (offset + (findManyUsers db w q offset READ_BATCH_SIZE).length)
            (stepState db w q offset s) with
        | none => none
        | some rest =>
          some ⟨findManyUsers db w q offset READ_BATCH_SIZE :: rest.pages,
            s.nextTaskUid :: rest.tagTasks, rest.state⟩) := rfl

theorem take_min_length {α : Type} (n : Nat) (l : List α) :
    l.take (min n l.length) = l.take n := by
  rcases Nat.le_total l.length n with h | h
  · rw [Nat.min_eq_right h, List.take_length, List.take_of_length_le h]
  · rw [Nat.min_eq_left h]

theorem length_findManyUsers (db : Db) (w : Option Nat) (q : List Nat) (skip : Nat) :
    (findManyUsers db w q skip READ_BATCH_SIZE).length =
      min READ_BATCH_SIZE (matchingCount db w q - skip) := by
  simp [findManyUsers, matchingCount]

theorem updateLoopFuel_isSome (db : Db) (w : Option Nat) (q : List Nat) :
    ∀ (fuel offset : Nat) (s : EngineState),
      offset ≤ matchingCount db w q →
      matchingCount db w q + 1 - offset ≤ fuel →
      (updateLoopFuel db w q fuel offset s).isSome = true := by
  intro fuel
  induction fuel with
  | zero => intro offset s h1 h2; omega
  | succ fuel ih =>
    intro offset s h1 h2
    rw [updateLoopFuel_succ]
    by_cases he : (findManyUsers db w q offset READ_BATCH_SIZE).isEmpty
    · simp [he]
    · have hlen := length_findManyUsers db w q offset
      have hne : findManyUsers db w q offset READ_BATCH_SIZE ≠ [] := by
        simpa [List.isEmpty_eq_false] using he
      have hpos : 0 < (findManyUsers db w q offset READ_BATCH_SIZE).length :=
        List.length_pos.mpr hne
      have hrec := ih (offset + (findManyUsers db w q offset READ_BATCH_SIZE).length)
        (stepState db w q offset s)
        (by have : READ_BATCH_SIZE = 1000 := rfl; omega)
        (by have : READ_BATCH_SIZE = 1000 := rfl; omega)
      simp only [he, if_false, Bool.false_eq_true]
      cases hx : updateLoopFuel db w q fuel
          (offset + (findManyUsers db w q offset READ_BATCH_SIZE).length)
          (stepState db w q offset s) with
      | none => rw [hx] at hrec; simp at hrec
      | some rest => simp [hx]

theorem updateLoop_eq_fuel (db : Db) (w : Option Nat) (q : List Nat) (offset : Nat)
    (s : EngineState) (h : offset ≤ matchingCount db w q) :
    updateLoopFuel db w q (matchingCount db w q + 1) offset s =
      some (updateLoop db w q offset s) := by
  have hs := updateLoopFuel_isSome db w q (matchingCount db w q + 1) offset s h (by omega)
  cases hx : updateLoopFuel db w q (matchingCount db w q + 1) offset s with
  | none => rw [hx] at hs; simp at hs
  | some r => simp [updateLoop, hx]

theorem updateLoopFuel_pages_flatten (db : Db) (w : Option Nat) (q : List Nat) :
    ∀ (fuel offset : Nat) (s : EngineState) (r : LoopResult),
      updateLoopFuel db w q fuel offset s = some r →
      r.pages.flatten = ((db.users.filter (userWhere w q)).drop offset).map selectMetrics := by
  intro fuel
  induction fuel with
  | zero => intro offset s r h; simp [updateLoopFuel] at h
  | succ fuel ih =>
    intro offset s r h
    rw [updateLoopFuel_succ] at h
    by_cases he : (findManyUsers db w q offset READ_BATCH_SIZE).isEmpty
    · simp only [he, if_true] at h
      have hr : r = ⟨[findManyUsers db w q offset READ_BATCH_SIZE], [], s⟩ :=
        (Option.some_injective _ h).symm
      have hnil : findManyUsers db w q offset READ_BATCH_SIZE = [] :=
        List.isEmpty_iff.mp he
      have hdrop : (db.users.filter (userWhere w q)).drop offset = [] := by
        have := hnil
        simp only [findManyUsers, List.map_eq_nil_iff, List.take_eq_nil_iff] at this
        rcases this with h1 | h1
        · exact absurd h1 (by decide)
        · exact h1
      rw [hr, hdrop]
      simp [hnil]
    · simp only [he, if_false, Bool.false_eq_true] at h
      cases hx : updateLoopFuel db w q fuel
          (offset + (findManyUsers db w q offset READ_BATCH_SIZE).length)
          (stepState db w q offset s) with
      | none =>
        rw [hx] at h; simp at h
      | some rest =>
        rw [hx] at h
        have hr : r = ⟨findManyUsers db w q offset READ_BATCH_SIZE :: rest.pages,
            s.nextTaskUid :: rest.tagTasks, rest.state⟩ :=
          (Option.some_injective _ h).symm
        have hrest := ih _ _ _ hx
        rw [hr]
        simp only [List.flatten_cons, hrest]
        have hsplit :
            ((db.users.filter (userWhere w q)).drop offset).map selectMetrics =
              findManyUsers db w q offset READ_BATCH_SIZE ++
                ((db.users.filter (userWhere w q)).drop
                  (offset + (findManyUsers db w q offset READ_BATCH_SIZE).length)).map
                    selectMetrics := by
          have hlen : (findManyUsers db w q offset READ_BATCH_SIZE).length =
              min READ_BATCH_SIZE ((db.users.filter (userWhere w q)).drop offset).length := by
            simp [findManyUsers]
          have htake :
              ((db.users.filter (userWhere w q)).drop offset).take
                  (findManyUsers db w q offset READ_BATCH_SIZE).length =
                ((db.users.filter (userWhere w q)).drop offset).take READ_BATCH_SIZE := by
            rw [hlen, take_min_length]
          calc ((db.users.filter (userWhere w q)).drop offset).map selectMetrics
              = (((db.users.filter (userWhere w q)).drop offset).take
                    (findManyUsers db w q offset READ_BATCH_SIZE).length ++
                  ((db.users.filter (userWhere w q)).drop offset).drop
                    (findManyUsers db w q offset READ_BATCH_SIZE).length).map selectMetrics := by
                rw [List.take_append_drop]
            _ = findManyUsers db w q offset READ_BATCH_SIZE ++
                  ((db.users.filter (userWhere w q)).drop
                    (offset + (findManyUsers db w q offset READ_BATCH_SIZE).length)).map
                      selectMetrics := by
                rw [List.map_append, htake, List.drop_drop]
                rfl
        rw [hsplit]

theorem updateLoopFuel_pages_shape (db : Db) (w : Option Nat) (q : List Nat) :
    ∀ (fuel offset : Nat) (s : EngineState) (r : LoopResult),
      updateLoopFuel db w q fuel offset s = some r →
      r.pages ≠ [] ∧ r.pages.getLast? = some [] ∧ ∀ p ∈ r.pages.dropLast, p ≠ [] := by
  intro fuel
  induction fuel with
  | zero => intro offset s r h; simp [updateLoopFuel] at h
  | succ fuel ih =>
    intro offset s r h
    rw [updateLoopFuel_succ] at h
    by_cases he : (findManyUsers db w q offset READ_BATCH_SIZE).isEmpty
    · simp only [he, if_true] at h
      have hr : r = ⟨[findManyUsers db w q offset READ_BATCH_SIZE], [], s⟩ :=
        (Option.some_injective _ h).symm
      have hnil : findManyUsers db w q offset READ_BATCH_SIZE = [] :=
        List.isEmpty_iff.mp he
      rw [hr]
      simp [hnil]
    · simp only [he, if_false, Bool.false_eq_true] at h
      have hne : findManyUsers db w q offset READ_BATCH_SIZE ≠ [] := by
        simpa [List.isEmpty_eq_false] using he
      cases hx : updateLoopFuel db w q fuel
          (offset + (findManyUsers db w q offset READ_BATCH_SIZE).length)
          (stepState db w q offset s) with
      | none => rw [hx] at h; simp at h
      | some rest =>
        rw [hx] at h
        have hr : r = ⟨findManyUsers db w q offset READ_BATCH_SIZE :: rest.pages,
            s.nextTaskUid :: rest.tagTasks, rest.state⟩ :=
          (Option.some_injective _ h).symm
        obtain ⟨h1, h2, h3⟩ := ih _ _ _ hx
        rw [hr]
        refine ⟨by simp, ?_, ?_⟩
        · cases hp : rest.pages with
          | nil => exact absurd hp h1
          | cons a l => simpa [hp] using hp ▸ h2
        · cases hp : rest.pages with
          | nil => exact absurd hp h1
          | cons a l =>
            intro p hpmem
            rw [show ((findManyUsers db w q offset READ_BATCH_SIZE :: a :: l).dropLast =
                findManyUsers db w q offset READ_BATCH_SIZE :: (a :: l).dropLast) from rfl] at hpmem
            rcases List.mem_cons.mp hpmem with h4 | h4
            · rw [h4]; exact hne
            · exact h3 p (hp ▸ h4)

theorem updateLoopFuel_upsertUids (db : Db) (w : Option Nat) (q : List Nat) :
    ∀ (fuel offset : Nat) (s : EngineState) (r : LoopResult),
      updateLoopFuel db w q fuel offset s = some r →
      upsertUids r.state.trace = upsertUids s.trace ++ r.tagTasks := by
  intro fuel
  induction fuel with
  | zero => intro offset s r h; simp [updateLoopFuel] at h
  | succ fuel ih =>
    intro offset s r h
    rw [updateLoopFuel_succ] at h
    by_cases he : (findManyUsers db w q offset READ_BATCH_SIZE).isEmpty
    · simp only [he, if_true] at h
      have hr : r = ⟨[findManyUsers db w q offset READ_BATCH_SIZE], [], s⟩ :=
        (Option.some_injective _ h).symm
      rw [hr]
      simp
    · simp only [he, if_false, Bool.false_eq_true] at h
      cases hx : updateLoopFuel db w q fuel
          (offset + (findManyUsers db w q offset READ_BATCH_SIZE).length)
          (stepState db w q offset s) with
      | none => rw [hx] at h; simp at h
      | some rest =>
        rw [hx] at h
        have hr : r = ⟨findManyUsers db w q offset READ_BATCH_SIZE :: rest.pages,
            s.nextTaskUid :: rest.tagTasks, rest.state⟩ :=
          (Option.some_injective _ h).symm
        have hrest := ih _ _ _ hx
        rw [hr]
        have hstep : upsertUids (stepState db w q offset s).trace =
            upsertUids s.trace ++ [s.nextTaskUid] := by
          simp [stepState, upsertUids, List.filterMap_append]
        show upsertUids rest.state.trace = upsertUids s.trace ++ s.nextTaskUid :: rest.tagTasks
        rw [hrest, hstep, List.append_assoc]
        rfl

theorem updateLoopFuel_upsertBatches (db : Db) (w : Option Nat) (q : List Nat) :
    ∀ (fuel offset : Nat) (s : EngineState) (r : LoopResult),
      updateLoopFuel db w q fuel offset s = some r →
      upsertBatches r.state.trace =
        upsertBatches s.trace ++ r.pages.dropLast.map (fun p => p.map flattenRecord) := by
  intro fuel
  induction fuel with
  | zero => intro offset s r h; simp [updateLoopFuel] at h
  | succ fuel ih =>
    intro offset s r h
    rw [updateLoopFuel_succ] at h
    by_cases he : (findManyUsers db w q offset READ_BATCH_SIZE).isEmpty
    · simp only [he, if_true] at h
      have hr : r = ⟨[findManyUsers db w q offset READ_BATCH_SIZE], [], s⟩ :=
        (Option.some_injective _ h).symm
      rw [hr]
      simp
    · simp only [he, if_false, Bool.false_eq_true] at h
      cases hx : updateLoopFuel db w q fuel
          (offset + (findManyUsers db w q offset READ_BATCH_SIZE).length)
          (stepState db w q offset s) with
      | none => rw [hx] at h; simp at h
      | some rest =>
        rw [hx] at h
        have hr : r = ⟨findManyUsers db w q offset READ_BATCH_SIZE :: rest.pages,
            s.nextTaskUid :: rest.tagTasks, rest.state⟩ :=
          (Option.some_injective _ h).symm
        have hrest := ih _ _ _ hx
        have hpne := (updateLoopFuel_pages_shape db w q _ _ _ _ hx).1
        rw [hr]
        cases hp : rest.pages with
        | nil => exact absurd hp hpne
        | cons a l =>
          simp only [hp] at hrest
          have hstep : upsertBatches (stepState db w q offset s).trace =
              upsertBatches s.trace ++
                [(findManyUsers db w q offset READ_BATCH_SIZE).map flattenRecord] := by
            simp [stepState, upsertBatches, List.filterMap_append]
          show upsertBatches rest.state.trace =
            upsertBatches s.trace ++
              (findManyUsers db w q offset READ_BATCH_SIZE :: (a :: l).dropLast).map
                (fun p => p.map flattenRecord)
          rw [hrest, hstep, List.map_cons, List.append_assoc]
          rfl

theorem updateLoopFuel_targets (db : Db) (w : Option Nat) (q : List Nat) :
    ∀ (fuel offset : Nat) (s : EngineState) (r : LoopResult),
      updateLoopFuel db w q fuel offset s = some r →
      upsertsTargetOnly INDEX_ID s.trace = true →
      upsertsTargetOnly INDEX_ID r.state.trace = true := by
  intro fuel
  induction fuel with
  | zero => intro offset s r h; simp [updateLoopFuel] at h
  | succ fuel ih =>
    intro offset s r h hs
    rw [updateLoopFuel_succ] at h
    by_cases he : (findManyUsers db w q offset READ_BATCH_SIZE).isEmpty
    · simp only [he, if_true] at h
      have hr : r = ⟨[findManyUsers db w q offset READ_BATCH_SIZE], [], s⟩ :=
        (Option.some_injective _ h).symm
      rw [hr]
      exact hs
    · simp only [he, if_false, Bool.false_eq_true] at h
      cases hx : updateLoopFuel db w q fuel
          (offset + (findManyUsers db w q offset READ_BATCH_SIZE).length)
          (stepState db w q offset s) with
      | none => rw [hx] at h; simp at h
      | some rest =>
        rw [hx] at h
        have hr : r = ⟨findManyUsers db w q offset READ_BATCH_SIZE :: rest.pages,
            s.nextTaskUid :: rest.tagTasks, rest.state⟩ :=
          (Option.some_injective _ h).symm
        rw [hr]
        have hstep : upsertsTargetOnly INDEX_ID (stepState db w q offset s).trace = true := by
          simp only [stepState, upsertsTargetOnly, List.all_append]
          simp only [upsertsTargetOnly] at hs
          simp [hs]
        exact ih _ _ rest hx hstep

theorem updateLoopFuel_pages_irrel (db : Db) (w : Option Nat) (q : List Nat) :
    ∀ (fuel offset : Nat) (s1 s2 : EngineState),
      (updateLoopFuel db w q fuel offset s1).map (fun r => r.pages) =
        (updateLoopFuel db w q fuel offset s2).map (fun r => r.pages) := by
  intro fuel
  induction fuel with
  | zero => intro offset s1 s2; simp [updateLoopFuel]
  | succ fuel ih =>
    intro offset s1 s2
    rw [updateLoopFuel_succ, updateLoopFuel_succ]
    by_cases he : (findManyUsers db w q offset READ_BATCH_SIZE).isEmpty
    · simp [he]
    · simp only [he, if_false, Bool.false_eq_true]
      have hrec := ih (offset + (findManyUsers db w q offset READ_BATCH_SIZE).length)
        (stepState db w q offset s1) (stepState db w q offset s2)
      cases hx1 : updateLoopFuel db w q fuel
          (offset + (findManyUsers db w q offset READ_BATCH_SIZE).length)
          (stepState db w q offset s1) with
      | none =>
        rw [hx1] at hrec
        cases hx2 : updateLoopFuel db w q fuel
            (offset + (findManyUsers db w q offset READ_BATCH_SIZE).length)
            (stepState db w q offset s2) with
        | none => simp
        | some r2 => rw [hx2] at hrec; simp at hrec
      | some r1 =>
        rw [hx1] at hrec
        cases hx2 : updateLoopFuel db w q fuel
            (offset + (findManyUsers db w q offset READ_BATCH_SIZE).length)
            (stepState db w q offset s2) with
        | none => rw [hx2] at hrec; simp at hrec
        | some r2 =>
          rw [hx2] at hrec
          have hpq : r1.pages = r2.pages := by simpa using hrec
          show some (findManyUsers db w q offset READ_BATCH_SIZE :: r1.pages) =
            some (findManyUsers db w q offset READ_BATCH_SIZE :: r2.pages)
          rw [hpq]

/-! ### Lemmas about `onIndexSetup` and `onIndexUpdate` traces -/

theorem onIndexSetup_upsertUids (c ia : Bool) (n : String) (s : EngineState) :
    upsertUids (onIndexSetup c ia n s).trace = upsertUids s.trace := by
  cases c <;> cases ia <;>
    simp [onIndexSetup, EngineState.push, EngineState.newTask, upsertUids,
      List.filterMap_append]

theorem onIndexSetup_upsertBatches (c ia : Bool) (n : String) (s : EngineState) :
    upsertBatches (onIndexSetup c ia n s).trace = upsertBatches s.trace := by
  cases c <;> cases ia <;>
    simp [onIndexSetup, EngineState.push, EngineState.newTask, upsertBatches,
      List.filterMap_append]

theorem onIndexSetup_targets (name : String) (c ia : Bool) (n : String) (s : EngineState) :
    upsertsTargetOnly name (onIndexSetup c ia n s).trace = upsertsTargetOnly name s.trace := by
  cases c <;> cases ia <;>
    simp [onIndexSetup, EngineState.push, EngineState.newTask, upsertsTargetOnly,
      List.all_append]

theorem onIndexUpdate_def_true (ia : Bool) (db : Db) (w : Option Nat) (n : String)
    (s : EngineState) :
    onIndexUpdate true ia db w n s =
      ((updateLoop db w (queuedIds db) 0 (onIndexSetup true ia n s)).state).push
        (EngineOp.waitForTasks
          (updateLoop db w (queuedIds db) 0 (onIndexSetup true ia n s)).tagTasks) := rfl

theorem runReadRows_eq (db : Db) (w : Option Nat) :
    runReadRows db w = (db.users.filter (userWhere w (queuedIds db))).map selectMetrics := by
  have h := updateLoop_eq_fuel db w (queuedIds db) 0 initialEngineState (Nat.zero_le _)
  have h2 := updateLoopFuel_pages_flatten db w (queuedIds db) _ _ _ _ h
  simpa [runReadRows, runPages] using h2

theorem updateLoop_pages_eq_runPages (db : Db) (w : Option Nat) (s : EngineState) :
    (updateLoop db w (queuedIds db) 0 s).pages = runPages db w := by
  have h1 := updateLoop_eq_fuel db w (queuedIds db) 0 s (Nat.zero_le _)
  have h2 := updateLoop_eq_fuel db w (queuedIds db) 0 initialEngineState (Nat.zero_le _)
  have h3 := updateLoopFuel_pages_irrel db w (queuedIds db)
    (matchingCount db w (queuedIds db) + 1) 0 s initialEngineState
  rw [h1, h2] at h3
  simpa [runPages] using h3

theorem upsertBatches_push_wait (s : EngineState) (ts : List Nat) :
    upsertBatches ((s.push (EngineOp.waitForTasks ts)).trace) = upsertBatches s.trace := by
  simp [EngineState.push, upsertBatches, List.filterMap_append]

theorem upsertUids_push_wait (s : EngineState) (ts : List Nat) :
    upsertUids ((s.push (EngineOp.waitForTasks ts)).trace) = upsertUids s.trace := by
  simp [EngineState.push, upsertUids, List.filterMap_append]

theorem onIndexUpdate_upsertBatches (ia : Bool) (db : Db) (w : Option Nat) (n : String) :
    upsertBatches ((onIndexUpdate true ia db w n initialEngineState).trace) =
      (runPages db w).dropLast.map (fun p => p.map flattenRecord) := by
  have h := updateLoop_eq_fuel db w (queuedIds db) 0
    (onIndexSetup true ia n initialEngineState) (Nat.zero_le _)
  have hb := updateLoopFuel_upsertBatches db w (queuedIds db) _ _ _ _ h
  have hsetup := onIndexSetup_upsertBatches true ia n initialEngineState
  have hzero : upsertBatches (initialEngineState.trace) = [] := rfl
  have hpages := updateLoop_pages_eq_runPages db w (onIndexSetup true ia n initialEngineState)
  rw [onIndexUpdate_def_true, upsertBatches_push_wait, hb, hsetup, hzero, hpages,
    List.nil_append]

theorem onIndexUpdate_trace_decomp (ia : Bool) (db : Db) (w : Option Nat) (n : String) :
    (onIndexUpdate true ia db w n initialEngineState).trace =
      (updateLoop db w (queuedIds db) 0 (onIndexSetup true ia n initialEngineState)).state.trace ++
        [EngineOp.waitForTasks
          (upsertUids ((onIndexUpdate true ia db w n initialEngineState).trace))] := by
  have h := updateLoop_eq_fuel db w (queuedIds db) 0
    (onIndexSetup true ia n initialEngineState) (Nat.zero_le _)
  have hu := updateLoopFuel_upsertUids db w (queuedIds db) _ _ _ _ h
  have hsetup := onIndexSetup_upsertUids true ia n initialEngineState
  have hnil : upsertUids (initialEngineState.trace) = [] := rfl
  rw [hnil] at hsetup
  have htags :
      upsertUids ((onIndexUpdate true ia db w n initialEngineState).trace) =
        (updateLoop db w (queuedIds db) 0 (onIndexSetup true ia n initialEngineState)).tagTasks := by
    rw [onIndexUpdate_def_true, upsertUids_push_wait, hu, hsetup, List.nil_append]
  rw [htags]
  rfl

/-! ### Sample data for concrete evaluations -/

def sampleMetric : UserMetric :=
  ⟨MetricTimeframe.AllTime, 10, 20, 30, 40, 50, 60⟩

def mkUser (id createdAt updatedAt : Nat) (deletedAt : Option Nat) : UserRow :=
  { id := id, username := "creator", createdAt := createdAt, updatedAt := updatedAt,
    deletedAt := deletedAt, rank := none, metrics := [] }

def dbBootstrap : Db := ⟨[mkUser 1 0 0 none], []⟩

def dbOneRow : Db := ⟨[mkUser 4 0 0 none], []⟩

/-! ### Claim theorems -/

/-- C4: when no index engine client is configured, `onIndexSetup` and
`onIndexUpdate` both return successfully without performing any index-engine
operation: the engine state, its operation trace included, is returned
unchanged, and no exception path exists (the functions are total). -/
theorem no_client_noop (ia : Bool) (db : Db) (w : Option Nat) (n : String) (s : EngineState) :
    onIndexSetup false ia n s = s ∧ onIndexUpdate false ia db w n s = s :=
  ⟨rfl, rfl⟩

/-- C5: in every run with a configured client, the final engine operation is
the `waitForTasks` barrier, and the task-id list it is given is exactly the
list of task uids of every `updateDocuments` batch submitted during the run
(in submission order); the run returns only after this final operation. -/
theorem final_join_covers_all_upserts (ia : Bool) (db : Db) (w : Option Nat) (n : String) :
    ((onIndexUpdate true ia db w n initialEngineState).trace).getLast? =
      some (EngineOp.waitForTasks
        (upsertUids ((onIndexUpdate true ia db w n initialEngineState).trace))) := by
  conv_lhs => rw [onIndexUpdate_trace_decomp ia db w n]
  rw [List.getLast?_concat]

/-- C1 (code bug): in a bootstrap run (watermark absent) the single submitted
upsert batch targets the live index name `creators`, not the shadow
`creators_NEW` — even when the run is invoked with the swap index name. -/
theorem bootstrap_upserts_hit_live_index :
    (upsertBatches ((onIndexUpdate true true dbBootstrap none SWAP_INDEX_ID
        initialEngineState).trace)).length = 1 ∧
    upsertsTargetOnly INDEX_ID ((onIndexUpdate true true dbBootstrap none SWAP_INDEX_ID
        initialEngineState).trace) = true ∧
    upsertsTargetOnly SWAP_INDEX_ID ((onIndexUpdate true true dbBootstrap none SWAP_INDEX_ID
        initialEngineState).trace) = false ∧
    INDEX_ID ≠ SWAP_INDEX_ID := by
  refine ⟨by decide, by decide, by decide, by decide⟩

/-- C6 (counterexample): with a single matching row the first page has 1 row,
fewer than the requested 1000, yet the loop does not stop there: it performs
a second read (which returns zero rows) before terminating, so two pages are
fetched in total. -/
theorem short_page_does_not_stop_loop :
    (runPages dbOneRow none).length = 2 ∧
    ((runPages dbOneRow none).head?.map List.length) = some 1 ∧
    1 < READ_BATCH_SIZE := by
  refine ⟨by decide, by decide, by decide⟩

/-- C6 (amended): for every store the batch-read loop terminates — fuel
`matchingCount + 1` provably suffices — and it stops exactly when a page
returns zero rows: the final fetched page is empty and every earlier page is
nonempty (a short nonempty page does not stop the loop). -/
theorem loop_terminates_on_empty_page (db : Db) (w : Option Nat) :
    (updateLoopFuel db w (queuedIds db) (matchingCount db w (queuedIds db) + 1) 0
        initialEngineState).isSome = true ∧
    (runPages db w).getLast? = some [] ∧
    (runPages db w).dropLast.all (fun p => !p.isEmpty) = true := by
  refine ⟨updateLoopFuel_isSome db w _ _ 0 initialEngineState (Nat.zero_le _) (by omega),
    ?_, ?_⟩
  · have h := updateLoop_eq_fuel db w (queuedIds db) 0 initialEngineState (Nat.zero_le _)
    exact (updateLoopFuel_pages_shape db w _ _ _ _ _ h).2.1
  · have h := updateLoop_eq_fuel db w (queuedIds db) 0 initialEngineState (Nat.zero_le _)
    have h3 := (updateLoopFuel_pages_shape db w _ _ _ _ _ h).2.2
    rw [List.all_eq_true]
    intro p hp
    simpa [List.isEmpty_eq_false] using h3 p hp

/-- The read-set selection predicate exactly as the spec phrases it: a row is
included iff (a) the watermark is absent, or (b) the row's last-modified time
is strictly greater than the watermark, or (c) the row's id is among the
pending ids. (Stated from the spec's words, for comparison against the
code's `userWhere`.) -/
def specSelectionPred (watermark : Option Nat) (pendingIds : List Nat) (u : UserRow) : Bool :=
  watermark.isNone ||
    (match watermark with
     | some t => decide (t < u.updatedAt)
     | none => false) ||
    pendingIds.contains u.id

def uDeleted : UserRow := mkUser 1 7 7 (some 3)

def uStale : UserRow := mkUser 2 1 10 none

def dbSelection : Db := ⟨[uDeleted, uStale], []⟩

/-- C2 (counterexample): with watermark 5, both rows of `dbSelection` satisfy
the spec's selection predicate (last-modified 7 > 5 and 10 > 5), yet the run
reads neither: `uDeleted` is excluded by the `deletedAt: null` conjunct the
claim omits, and `uStale` because the code compares `createdAt` (1), not the
row's last-modified time (10), against the watermark. -/
theorem read_set_differs_from_spec_predicate :
    runReadRows dbSelection (some 5) = [] ∧
    uDeleted ∈ dbSelection.users ∧ uStale ∈ dbSelection.users ∧
    specSelectionPred (some 5) (queuedIds dbSelection) uDeleted = true ∧
    specSelectionPred (some 5) (queuedIds dbSelection) uStale = true := by
  refine ⟨by decide, by decide, by decide, by decide, by decide⟩

theorem userWhere_iff (w : Option Nat) (q : List Nat) (u : UserRow) :
    userWhere w q u = true ↔
      (u.deletedAt = none ∧
        (w = none ∨ (∃ t, w = some t ∧ t < u.createdAt) ∨ u.id ∈ q)) := by
  cases w with
  | none => simp [userWhere]
  | some t => simp [userWhere]

/-- C2 (amended): a row of the store is read by the run iff it is not
soft-deleted (`deletedAt` null) and (the watermark is absent, or the row's
`createdAt` is strictly greater than the watermark, or its id is among the
queued ids for this index kind). Stated over row ids; `hids` is the
primary-key uniqueness of the user table. -/
theorem read_set_iff (db : Db) (w : Option Nat) (u : UserRow)
    (hmem : u ∈ db.users) (hids : (db.users.map (fun v => v.id)).Nodup) :
    u.id ∈ (runReadRows db w).map (fun d => d.id) ↔
      (u.deletedAt = none ∧
        (w = none ∨ (∃ t, w = some t ∧ t < u.createdAt) ∨ u.id ∈ queuedIds db)) := by
  rw [runReadRows_eq, List.map_map]
  rw [show ((fun d : UserRow => d.id) ∘ selectMetrics) = (fun v : UserRow => v.id) from rfl]
  constructor
  · intro hin
    obtain ⟨v, hv, hvid⟩ := List.mem_map.mp hin
    obtain ⟨hvmem, hvpred⟩ := List.mem_filter.mp hv
    have hveq : v = u := List.inj_on_of_nodup_map hids hvmem hmem hvid
    rw [hveq] at hvpred
    exact (userWhere_iff w (queuedIds db) u).mp hvpred
  · intro hsel
    have hpred : userWhere w (queuedIds db) u = true :=
      (userWhere_iff w (queuedIds db) u).mpr hsel
    exact List.mem_map.mpr ⟨u, List.mem_filter.mpr ⟨hmem, hpred⟩, rfl⟩

def uQueued : UserRow := mkUser 3 10 10 none

def dbQueuedRead : Db := ⟨[uQueued], [⟨3, "creators"⟩]⟩

theorem read_set_iff_witness :
    (uQueued ∈ dbQueuedRead.users) ∧
    ((dbQueuedRead.users.map (fun v => v.id)).Nodup) ∧
    (uQueued.id ∈ (runReadRows dbQueuedRead (some 20)).map (fun d => d.id) ↔
      (uQueued.deletedAt = none ∧
        ((some 20 : Option Nat) = none ∨
          (∃ t, (some 20 : Option Nat) = some t ∧ t < uQueued.createdAt) ∨
          uQueued.id ∈ queuedIds dbQueuedRead))) :=
  ⟨by decide, by decide, read_set_iff dbQueuedRead (some 20) uQueued (by decide) (by decide)⟩

/-- C7: the transformer flattens the one-to-many metrics relation by keeping
exactly the record of the all-time timeframe and merging its fields (every
field present); when no all-time record exists the metrics field is the
spread of `{}` — the all-fields-absent empty object, not a null-filled
placeholder. -/
theorem metrics_flattened_to_alltime (u : UserRow)
    (huniq : (u.metrics.filter (fun m => m.timeframe == MetricTimeframe.AllTime)).length ≤ 1) :
    (∀ m, u.metrics.filter (fun m => m.timeframe == MetricTimeframe.AllTime) = [m] →
        (flattenRecord (selectMetrics u)).metrics = spreadMetric m) ∧
    (u.metrics.filter (fun m => m.timeframe == MetricTimeframe.AllTime) = [] →
        (flattenRecord (selectMetrics u)).metrics = emptyMetricsObj) := by
  constructor
  · intro m hm
    simp [flattenRecord, selectMetrics, hm]
  · intro hm
    simp [flattenRecord, selectMetrics, hm]

def uWithMetric : UserRow :=
  { id := 6, username := "creator", createdAt := 0, updatedAt := 0, deletedAt := none,
    rank := none, metrics := [sampleMetric, ⟨MetricTimeframe.Day, 1, 1, 1, 1, 1, 1⟩] }

def uNoMetric : UserRow := mkUser 7 0 0 none

theorem metrics_flattened_to_alltime_witness :
    ((uWithMetric.metrics.filter
        (fun m => m.timeframe == MetricTimeframe.AllTime)).length ≤ 1) ∧
    (flattenRecord (selectMetrics uWithMetric)).metrics = spreadMetric sampleMetric ∧
    (flattenRecord (selectMetrics uNoMetric)).metrics = emptyMetricsObj :=
  ⟨by decide,
   (metrics_flattened_to_alltime uWithMetric (by decide)).1 sampleMetric (by decide),
   (metrics_flattened_to_alltime uNoMetric (by decide)).2 (by decide)⟩

/-- JS `Array.prototype.map` semantics for a callback that may throw: the
first thrown error propagates to the caller and no result array is produced. -/
def jsMapThrow (f : UserRow → Except String IndexReadyRecord) :
    List UserRow → Except String (List IndexReadyRecord)
  | [] => Except.ok []
  | u :: us =>
    match f u with
    | Except.error e => Except.error e
    | Except.ok d =>
      match jsMapThrow f us with
      | Except.error e => Except.error e
      | Except.ok ds => Except.ok (d :: ds)

/-- The per-batch transform step `users.map(cb)` of `onIndexUpdate`,
generalized over a possibly-throwing per-row callback. There is no
try/catch around the map in the source, so a throwing row aborts the whole
batch; the source's own callback is the total `fun u => Except.ok (flattenRecord u)`. -/
def batchTransformStep (transform : UserRow → Except String IndexReadyRecord)
    (users : List UserRow) : Except String (List IndexReadyRecord) :=
  jsMapThrow transform users

/-- A transform that throws on exactly one row (id 1). -/
def demoFailingTransform (u : UserRow) : Except String IndexReadyRecord :=
  if u.id == 1 then Except.error "malformed row" else Except.ok (flattenRecord u)

def rowBad : UserRow := mkUser 1 0 0 none

def rowOk : UserRow := mkUser 2 0 0 none

/-- C8 (code bug): in a two-row batch where the transform throws for exactly
one row and succeeds for the other, the map propagates the error: the batch
produces no documents at all (the other row's document is lost with it),
instead of the claimed one-document batch with the offending row skipped. -/
theorem single_row_throw_aborts_batch :
    demoFailingTransform rowBad = Except.error "malformed row" ∧
    demoFailingTransform rowOk = Except.ok (flattenRecord rowOk) ∧
    batchTransformStep demoFailingTransform [rowBad, rowOk] =
      Except.error "malformed row" ∧
    batchTransformStep (fun u => Except.ok (flattenRecord u)) [rowBad, rowOk] =
      Except.ok [flattenRecord rowBad, flattenRecord rowOk] :=
  ⟨rfl, rfl, rfl, rfl⟩

/-- C9: over a store whose rows have pairwise-distinct ids (the table's
primary key) — the store being a fixed value during the run — any two
distinct upsert batches submitted by the run carry disjoint document-id
sets, because the offset-paginated pages are pairwise-disjoint slices. -/
theorem upsert_batches_pairwise_disjoint (ia : Bool) (db : Db) (w : Option Nat) (n : String)
    (hids : (db.users.map (fun u => u.id)).Nodup) :
    (upsertBatches ((onIndexUpdate true ia db w n initialEngineState).trace)).Pairwise
      (fun b1 b2 => ∀ i, i ∈ b1.map (fun d => d.id) → i ∉ b2.map (fun d => d.id)) := by
  rw [onIndexUpdate_upsertBatches]
  have hflat : (runPages db w).flatten =
      (db.users.filter (userWhere w (queuedIds db))).map selectMetrics := by
    have h := updateLoop_eq_fuel db w (queuedIds db) 0 initialEngineState (Nat.zero_le _)
    simpa [runPages] using updateLoopFuel_pages_flatten db w (queuedIds db) _ _ _ _ h
  have hnodup : ((runPages db w).flatten.map (fun v => v.id)).Nodup := by
    rw [hflat, List.map_map,
      show ((fun v : UserRow => v.id) ∘ selectMetrics) = (fun v : UserRow => v.id) from rfl]
    have hsub : List.Sublist
        ((db.users.filter (userWhere w (queuedIds db))).map (fun v => v.id))
        (db.users.map (fun v => v.id)) :=
      (List.filter_sublist _).map _
    exact hids.sublist hsub
  have hpw : ((runPages db w).map (fun p => p.map (fun v => v.id))).Pairwise List.Disjoint := by
    have : (((runPages db w).map (fun p => p.map (fun v => v.id))).flatten).Nodup := by
      rw [← List.map_flatten]
      exact hnodup
    exact (List.nodup_flatten.mp this).2
  have hpw2 : (runPages db w).Pairwise
      (fun p1 p2 => List.Disjoint (p1.map (fun v => v.id)) (p2.map (fun v => v.id))) :=
    List.pairwise_map.mp hpw
  have hpw3 : ((runPages db w).dropLast).Pairwise
      (fun p1 p2 => List.Disjoint (p1.map (fun v => v.id)) (p2.map (fun v => v.id))) :=
    hpw2.sublist (List.dropLast_sublist _)
  rw [List.pairwise_map]
  refine hpw3.imp ?_
  intro p1 p2 hdis i hi1 hi2
  rw [List.map_map,
    show ((fun d : IndexReadyRecord => d.id) ∘ flattenRecord) = (fun v : UserRow => v.id)
      from rfl] at hi1 hi2
  exact hdis hi1 hi2

def dbTwoRows : Db := ⟨[mkUser 11 0 0 none, mkUser 12 0 0 none], []⟩

theorem upsert_batches_pairwise_disjoint_witness :
    ((dbTwoRows.users.map (fun u => u.id)).Nodup) ∧
    (upsertBatches ((onIndexUpdate true true dbTwoRows none "creators"
        initialEngineState).trace)).Pairwise
      (fun b1 b2 => ∀ i, i ∈ b1.map (fun d => d.id) → i ∉ b2.map (fun d => d.id)) :=
  ⟨by decide, upsert_batches_pairwise_disjoint true dbTwoRows none "creators" (by decide)⟩

theorem contains_congr_of_mem_iff {l1 l2 : List Nat}
    (h : ∀ i, i ∈ l1 ↔ i ∈ l2) (i : Nat) : l1.contains i = l2.contains i := by
  simp only [List.elem_eq_mem]
  rw [decide_eq_decide]
  exact h i

theorem userWhere_queue_congr (w : Option Nat) {l1 l2 : List Nat}
    (h : ∀ i, i ∈ l1 ↔ i ∈ l2) (u : UserRow) :
    userWhere w l1 u = userWhere w l2 u := by
  cases w with
  | none => rfl
  | some t => simp only [userWhere, contains_congr_of_mem_iff h u.id]

theorem updateLoopFuel_queue_congr (users : List UserRow) (q1 q2 : List QueueEntry)
    (w : Option Nat)
    (h : ∀ i, i ∈ queuedIds ⟨users, q1⟩ ↔ i ∈ queuedIds ⟨users, q2⟩) :
    ∀ (fuel offset : Nat) (s : EngineState),
      updateLoopFuel ⟨users, q1⟩ w (queuedIds ⟨users, q1⟩) fuel offset s =
        updateLoopFuel ⟨users, q2⟩ w (queuedIds ⟨users, q2⟩) fuel offset s := by
  have hfind : ∀ offset take,
      findManyUsers ⟨users, q1⟩ w (queuedIds ⟨users, q1⟩) offset take =
        findManyUsers ⟨users, q2⟩ w (queuedIds ⟨users, q2⟩) offset take := by
    intro offset take
    simp only [findManyUsers]
    rw [List.filter_congr (fun x _ => userWhere_queue_congr w h x)]
  intro fuel
  induction fuel with
  | zero => intro offset s; rfl
  | succ fuel ih =>
    intro offset s
    rw [updateLoopFuel_succ, updateLoopFuel_succ, hfind]
    by_cases he : (findManyUsers ⟨users, q2⟩ w (queuedIds ⟨users, q2⟩) offset
        READ_BATCH_SIZE).isEmpty
    · simp [he]
    · simp only [he, if_false, Bool.false_eq_true]
      have hstep : stepState ⟨users, q1⟩ w (queuedIds ⟨users, q1⟩) offset s =
          stepState ⟨users, q2⟩ w (queuedIds ⟨users, q2⟩) offset s := by
        simp only [stepState, hfind]
      rw [hstep, ih]

theorem matchingCount_queue_congr (users : List UserRow) (q1 q2 : List QueueEntry)
    (w : Option Nat)
    (h : ∀ i, i ∈ queuedIds ⟨users, q1⟩ ↔ i ∈ queuedIds ⟨users, q2⟩) :
    matchingCount ⟨users, q1⟩ w (queuedIds ⟨users, q1⟩) =
      matchingCount ⟨users, q2⟩ w (queuedIds ⟨users, q2⟩) := by
  simp only [matchingCount]
  rw [List.filter_congr (fun x _ => userWhere_queue_congr w h x)]

/-- C10: duplicate change-queue entries are irrelevant — if two queue states
list the same set of pending ids for this index kind (regardless of
multiplicity), the run reads the same rows and issues the identical engine
operations (same documents, same batches, same task joins). -/
theorem queue_multiplicity_irrelevant (client ia : Bool) (users : List UserRow)
    (q1 q2 : List QueueEntry) (w : Option Nat) (n : String) (s : EngineState)
    (h : ∀ i, i ∈ queuedIds ⟨users, q1⟩ ↔ i ∈ queuedIds ⟨users, q2⟩) :
    runReadRows ⟨users, q1⟩ w = runReadRows ⟨users, q2⟩ w ∧
    onIndexUpdate client ia ⟨users, q1⟩ w n s =
      onIndexUpdate client ia ⟨users, q2⟩ w n s := by
  have hloop : updateLoop ⟨users, q1⟩ w (queuedIds ⟨users, q1⟩) 0
      (onIndexSetup true ia n s) =
      updateLoop ⟨users, q2⟩ w (queuedIds ⟨users, q2⟩) 0 (onIndexSetup true ia n s) := by
    simp only [updateLoop, matchingCount_queue_congr users q1 q2 w h,
      updateLoopFuel_queue_congr users q1 q2 w h]
  constructor
  · have hloop0 : updateLoop ⟨users, q1⟩ w (queuedIds ⟨users, q1⟩) 0 initialEngineState =
        updateLoop ⟨users, q2⟩ w (queuedIds ⟨users, q2⟩) 0 initialEngineState := by
      simp only [updateLoop, matchingCount_queue_congr users q1 q2 w h,
        updateLoopFuel_queue_congr users q1 q2 w h]
    simp only [runReadRows, runPages, hloop0]
  · cases client with
    | false => rfl
    | true =>
      rw [onIndexUpdate_def_true, onIndexUpdate_def_true, hloop]

def usersQ : List UserRow := [mkUser 9 0 0 none]

def qDup : List QueueEntry := [⟨9, "creators"⟩, ⟨9, "creators"⟩]

def qOne : List QueueEntry := [⟨9, "creators"⟩]

theorem queue_multiplicity_irrelevant_witness :
    (∀ i, i ∈ queuedIds ⟨usersQ, qDup⟩ ↔ i ∈ queuedIds ⟨usersQ, qOne⟩) ∧
    runReadRows ⟨usersQ, qDup⟩ (some 5) = runReadRows ⟨usersQ, qOne⟩ (some 5) ∧
    onIndexUpdate true true ⟨usersQ, qDup⟩ (some 5) "creators" initialEngineState =
      onIndexUpdate true true ⟨usersQ, qOne⟩ (some 5) "creators" initialEngineState := by
  have h : ∀ i, i ∈ queuedIds ⟨usersQ, qDup⟩ ↔ i ∈ queuedIds ⟨usersQ, qOne⟩ := by
    intro i
    show i ∈ [9, 9] ↔ i ∈ [9]
    simp
  exact ⟨h, queue_multiplicity_irrelevant true true usersQ qDup qOne (some 5) "creators"
    initialEngineState h⟩

/-- A processor-level event: an engine operation, a change-queue deletion, or
a watermark write. -/
inductive ProcEvent
  | engine (op : EngineOp)
  | clearQueue (ids : List Nat)
  | setWatermark (t : Nat)
deriving DecidableEq

/-- Modelled from the spec: the generic processor `createSearchIndexUpdateProcessor`
(`~/server/search-index/base.search-index`) is not among the provided source
files — only this caller is. Per the spec's Orchestrator contract for the
incremental path, a run reads the pending queue ids, executes the index
update (whose final engine operation is the task join), and on success
"clears processed queue entries (I3) and advances the watermark (I2)",
the watermark "immediately after final task-join". With no configured
client every operation is a no-op that returns success. -/
def processorRun (indexAvailable : Bool) (client : Bool) (db : Db)
    (lastUpdatedAt : Option Nat) (now : Nat) (indexName : String) :
    Db × List ProcEvent :=
  if !client then (db, [])
  else
    let processedIds := queuedIds db
    let s := onIndexUpdate client indexAvailable db lastUpdatedAt indexName initialEngineState
    ({ db with
        searchIndexUpdateQueue :=
          db.searchIndexUpdateQueue.filter
            (fun e => !(e.type == INDEX_ID && processedIds.contains e.id)) },
     s.trace.map ProcEvent.engine ++
       [ProcEvent.clearQueue processedIds, ProcEvent.setWatermark now])

/-- The upsert task uids named by the engine events of a processor trace. -/
def procUpsertUids (evs : List ProcEvent) : List Nat :=
  evs.filterMap (fun e =>
    match e with
    | ProcEvent.engine (EngineOp.updateDocuments _ _ uid) => some uid
    | _ => none)

theorem procUpsertUids_map_engine (T : List EngineOp) :
    procUpsertUids (T.map ProcEvent.engine) = upsertUids T := by
  induction T with
  | nil => rfl
  | cons op T ih =>
    cases op <;> simp [procUpsertUids, upsertUids] at ih ⊢ <;> exact ih

theorem clearQueue_index (T : List EngineOp) (P : List Nat) (now : Nat)
    (j : Nat) (ids : List Nat)
    (h : (T.map ProcEvent.engine ++
        [ProcEvent.clearQueue P, ProcEvent.setWatermark now])[j]? =
      some (ProcEvent.clearQueue ids)) :
    j = T.length := by
  have hlen : (T.map ProcEvent.engine).length = T.length := by simp
  rcases Nat.lt_or_ge j (T.map ProcEvent.engine).length with hj | hj
  · rw [List.getElem?_append_left hj, List.getElem?_map] at h
    cases hx : T[j]? with
    | none => rw [hx] at h; simp at h
    | some op => rw [hx] at h; simp at h
  · rw [List.getElem?_append_right hj] at h
    rcases hk : j - (T.map ProcEvent.engine).length with _ | k
    · omega
    · rw [hk] at h
      rcases k with _ | k <;> simp at h

/-- C3 (spec-modelled): a successful incremental run deletes the queue
entries of every processed id, and a queue-clear event occurs only strictly
after an engine task-join (`waitForTasks`) that covers every upsert task of
the run — never before. -/
theorem queue_cleared_only_after_join (ia : Bool) (db : Db) (t0 now : Nat) (n : String) :
    ((processorRun ia true db (some t0) now n).1.searchIndexUpdateQueue.all
      (fun e => !(e.type == INDEX_ID && (queuedIds db).contains e.id)) = true) ∧
    (∀ j ids,
      ((processorRun ia true db (some t0) now n).2)[j]? =
          some (ProcEvent.clearQueue ids) →
      ∀ uid ∈ procUpsertUids ((processorRun ia true db (some t0) now n).2),
        ∃ (i : Nat) (ts : List Nat), i < j ∧
          ((processorRun ia true db (some t0) now n).2)[i]? =
            some (ProcEvent.engine (EngineOp.waitForTasks ts)) ∧ uid ∈ ts) := by
  constructor
  · rw [List.all_eq_true]
    intro e he
    exact (List.mem_filter.mp he).2
  · intro j ids hj uid huid
    have hdecomp := onIndexUpdate_trace_decomp ia db (some t0) n
    set T := (onIndexUpdate true ia db (some t0) n initialEngineState).trace with hT
    set B := (updateLoop db (some t0) (queuedIds db) 0
      (onIndexSetup true ia n initialEngineState)).state.trace with hB
    set U := upsertUids T with hU
    have hevs : (processorRun ia true db (some t0) now n).2 =
        T.map ProcEvent.engine ++
          [ProcEvent.clearQueue (queuedIds db), ProcEvent.setWatermark now] := rfl
    rw [hevs] at hj
    have hjidx : j = T.length := clearQueue_index T (queuedIds db) now j ids hj
    have huid2 : uid ∈ U := by
      rw [hevs, procUpsertUids, List.filterMap_append] at huid
      have : procUpsertUids (T.map ProcEvent.engine) = upsertUids T :=
        procUpsertUids_map_engine T
      rw [procUpsertUids] at this
      rw [this] at huid
      simpa using huid
    refine ⟨B.length, U, ?_, ?_, huid2⟩
    · have : T.length = B.length + 1 := by rw [hdecomp]; simp
      omega
    · rw [hevs, hdecomp]
      have hmap : (B ++ [EngineOp.waitForTasks U]).map ProcEvent.engine =
          B.map ProcEvent.engine ++ [ProcEvent.engine (EngineOp.waitForTasks U)] := by
        simp
      rw [hmap, List.append_assoc]
      have hBlen : (B.map ProcEvent.engine).length = B.length := by simp
      rw [List.getElem?_append_right (by omega)]
      simp [hBlen]

def dbQueueRun : Db := ⟨[mkUser 5 9 9 none], [⟨5, "creators"⟩, ⟨8, "creators"⟩]⟩

theorem queue_cleared_only_after_join_witness :
    ((processorRun true true dbQueueRun (some 3) 99 "creators").1.searchIndexUpdateQueue.all
      (fun e => !(e.type == INDEX_ID && (queuedIds dbQueueRun).contains e.id)) = true) :=
  (queue_cleared_only_after_join true dbQueueRun 3 99 "creators").1

end CreatorsSearchIndex
